import Mathlib

/-!
Verification of the cross-repository text-search orchestrator
(`services/backend/graphqlbackend/textsearch.go`).

The development embeds the Go source shallowly:

* the pure data model (`patternInfo`, `lineMatch`, `fileMatch`, `repoMatch`)
  and the sequential functions `textSearch`, `searchRepo` and `accumulate`
  become Lean functions, with the external collaborators (HTTP transport,
  `localstore.Repos.GetByURI`, `backend.Repos.ResolveRev`, JSON decoding)
  passed in as oracle functions;
* the concurrent orchestrator `SearchRepos` becomes a small-step transition
  system (`Step`) over a configuration that records the program counter of
  the main goroutine, of each of the ten worker goroutines and of the
  `accumulate` goroutine, together with the state of the two channels and of
  the shared `context` cancellation flag.

Machine integers: `LineNumber` is an `int32` in Go; it is modelled as `Int`
together with an explicit two's-complement wrap (`wrap32`) where the code
performs `int32` arithmetic, and the JSON decoding boundary enforces the
`int32` range exactly as `encoding/json` does.
-/

/-- Error taxonomy of the single-repo search client and its callers, following
the failure classes the code produces: a missing `SEARCHER_URL` configuration,
a transport failure from `client.Do`, a non-200 response (status and body), a
JSON decoding failure, `context.Canceled`, and the remaining `error` values the
code merely forwards (`http.NewRequest`, `ioutil.ReadAll`, `GetByURI`, URI
parsing). -/
inductive Err where
  | config : Err
  | transport (msg : String) : Err
  | remote (status : Int) (body : String) : Err
  | protocol (msg : String) : Err
  | canceled : Err
  | other (msg : String) : Err
deriving DecidableEq, Repr

/-- `patternInfo` is the struct used by vscode to pass on search queries. -/
structure patternInfo where
  Pattern : String
  IsRegExp : Bool
  IsWordMatch : Bool
  IsCaseSensitive : Bool
deriving DecidableEq, Repr

/-- Two's-complement wrap into the `int32` range, used where the Go code does
`int32` arithmetic. -/
def wrap32 (n : Int) : Int := (n + 2 ^ 31) % 2 ^ 32 - 2 ^ 31

/-- `lineMatch` is the struct used by vscode to receive search results for a
line. `JLineNumber` is an `int32` in Go, modelled as an `Int` that the decoding
boundary keeps inside the `int32` range. -/
structure lineMatch where
  JPreview : String
  JLineNumber : Int
  JOffsetAndLengths : List (List Int)
deriving DecidableEq, Repr

def lineMatch.Preview (lm : lineMatch) : String := lm.JPreview

/-- `func (lm *lineMatch) LineNumber() int32 { return lm.JLineNumber + 1 }`:
the addition is `int32` addition, hence the wrap. -/
def lineMatch.LineNumber (lm : lineMatch) : Int := wrap32 (lm.JLineNumber + 1)

def lineMatch.OffsetAndLengths (lm : lineMatch) : List (List Int) :=
  lm.JOffsetAndLengths

/-- `fileMatch` is the struct used by vscode to receive search results; the
JSON keys are `Path` and `LineMatches`. -/
structure fileMatch where
  JPath : String
  JLineMatches : List lineMatch
deriving DecidableEq, Repr

def fileMatch.Path (fm : fileMatch) : String := fm.JPath

def fileMatch.LineMatches (fm : fileMatch) : List lineMatch := fm.JLineMatches

/-- One `LineMatch` object of the backend's JSON response, as it stands on the
wire: `LineNumber` is 0-based and an arbitrary integer before the decoder
checks it. -/
structure wireLineMatch where
  preview : String
  lineNumber : Int
  offsetAndLengths : List (List Int)
deriving DecidableEq, Repr

/-- Decoding one wire `LineMatch` into the `lineMatch` struct, as
`json.NewDecoder(resp.Body).Decode(&matches)` does: `encoding/json` rejects a
number that overflows the target `int32` field and otherwise stores the wire
value unchanged. -/
def decodeLineMatch (w : wireLineMatch) : Except String lineMatch :=
  if w.lineNumber < -(2 ^ 31) ∨ 2 ^ 31 ≤ w.lineNumber then
    .error "json: cannot unmarshal number: overflows int32"
  else if !(w.offsetAndLengths.all fun row =>
      row.all fun v => decide (-(2 ^ 31) ≤ v) && decide (v < 2 ^ 31)) then
    .error "json: cannot unmarshal number: overflows int32"
  else
    .ok { JPreview := w.preview, JLineNumber := w.lineNumber,
          JOffsetAndLengths := w.offsetAndLengths }

/-- Modelled from the spec: the `xlang/uri` package is not among the staged
source files. The spec identifies a `RepoMatch` by the compound key
"(repository, snapshot id, file path)" and `searchRepo` builds the URI from
the string `repoName + "?" + commit.CommitID + "#" + fm.JPath`, so a URI
carries those three components and its `Path` field is read as the file-path
component named by the spec's sort key (spec 4.3: "ascending lexicographic
order of the file-path component of the RepoMatch identity"). -/
structure URI where
  repo : String
  commit : String
  path : String
deriving DecidableEq, Repr

/-- Modelled from the spec: parsing `repo?commit#path` into its three
components (the shape `searchRepo` always constructs). A string without
exactly one `?` followed by exactly one `#` is rejected. -/
def URI.parse (s : String) : Option URI :=
  match s.splitOn "?" with
  | [r, rest] =>
    match rest.splitOn "#" with
    | [c, p] => some { repo := r, commit := c, path := p }
    | _ => none
  | _ => none

/-- `repoMatch`: one matched file within one repository at a fixed snapshot. -/
structure repoMatch where
  uri : URI
  lineMatches : List lineMatch
deriving DecidableEq, Repr

def repoMatch.LineMatches (rm : repoMatch) : List lineMatch := rm.lineMatches

def repoMatch.URIString (rm : repoMatch) : String :=
  rm.uri.repo ++ "?" ++ rm.uri.commit ++ "#" ++ rm.uri.path

/-- The query parameters `textSearch` places in the request URL: `Repo`,
`Commit` and `Pattern` are always present; each boolean parameter is present
(set to `"true"`) exactly when the corresponding flag is true. -/
structure searchQuery where
  Repo : String
  Commit : String
  Pattern : String
  IsRegExp : Bool
  IsWordMatch : Bool
  IsCaseSensitive : Bool
deriving DecidableEq, Repr

/-- What the HTTP transport (`client.Do`) yields for one request: a transport
failure, or a response with a status code and a fully read body. -/
inductive netOutcome where
  | transportError (msg : String) : netOutcome
  | response (status : Int) (body : String) : netOutcome
deriving DecidableEq, Repr

/-- `textSearch(ctx, repo, commit, p)`, the single-repo search client.
External effects become oracle arguments: `newRequestErr` is the outcome of
`http.NewRequest` for the configured URL (an `Option` error), `net` is the
transport, `readBodyErr` the outcome of `ioutil.ReadAll` on a non-200 body and
`decodeBody` the JSON decoding of a 200 body. The second component counts the
network requests the call issues, to state that the unconfigured case fails
before any network call. -/
def textSearch (searcherURL : String) (repo commit : String) (p : patternInfo)
    (newRequestErr : Option String) (net : searchQuery → netOutcome)
    (readBodyErr : Option String)
    (decodeBody : String → Except String (List fileMatch)) :
    Except Err (List fileMatch) × Nat :=
  if searcherURL = "" then
    (.error .config, 0)
  else
    match newRequestErr with
    | some e => (.error (.other e), 0)
    | none =>
      match net { Repo := repo, Commit := commit, Pattern := p.Pattern,
                  IsRegExp := p.IsRegExp, IsWordMatch := p.IsWordMatch,
                  IsCaseSensitive := p.IsCaseSensitive } with
      | .transportError m => (.error (.transport m), 1)
      | .response status body =>
        if status ≠ 200 then
          match readBodyErr with
          | some e => (.error (.other e), 1)
          | none => (.error (.remote status body), 1)
        else
          match decodeBody body with
          | .error m => (.error (.protocol m), 1)
          | .ok ms => (.ok ms, 1)

/-- The repository record `localstore.Repos.GetByURI` returns; only its `ID`
is used by `searchRepo`. -/
structure repoRec where
  ID : Nat
deriving DecidableEq, Repr

/-- The resolved revision `backend.Repos.ResolveRev` returns (behind a
pointer in Go). -/
structure resolvedRev where
  CommitID : String
deriving DecidableEq, Repr

/-- `searchRepo(ctx, repoName, info)`. `getByURI` and `resolveRev` stand for
the two external collaborators, each returning Go's `(pointer, error)` pair:
`.error e` is `(nil, e)`. The code assigns `ResolveRev`'s error to `err`
WITHOUT checking it (`commit, err := ...; fileMatches, err := textSearch(...)`
overwrites it) and immediately evaluates `commit.CommitID`; when `ResolveRev`
failed, `commit` is nil and that field access is a nil-pointer dereference — a
runtime panic, modelled as `none`. `textSearchFn` is the single-repo client
with its own oracles already supplied. -/
def searchRepo (getByURI : String → Except Err repoRec)
    (resolveRev : Nat → Except Err resolvedRev)
    (textSearchFn : String → String → patternInfo → Except Err (List fileMatch))
    (repoName : String) (info : patternInfo) :
    Option (Except Err (List repoMatch)) :=
  match getByURI repoName with
  | .error e => some (.error e)
  | .ok repo =>
    match resolveRev repo.ID with
    | .error _ => none
    | .ok commit =>
      match textSearchFn repoName commit.CommitID info with
      | .error e => some (.error e)
      | .ok fileMatches =>
        some <| fileMatches.mapM fun fm =>
          match URI.parse (repoName ++ "?" ++ commit.CommitID ++ "#" ++ fm.JPath) with
          | some u => Except.ok ({ uri := u, lineMatches := fm.JLineMatches } : repoMatch)
          | none => Except.error (Err.other "uri: parse failed")

/-- Lexicographic comparison of two character sequences by code point. -/
def charsLess : List Char → List Char → Bool
  | [], [] => false
  | [], _ :: _ => true
  | _ :: _, [] => false
  | a :: as, b :: bs =>
    if a.toNat < b.toNat then true
    else if b.toNat < a.toNat then false
    else charsLess as bs

/-- `strings.Compare(a, b) < 0`: byte-wise lexicographic order, which on valid
UTF-8 agrees with the code-point order `charsLess` computes. -/
def strLess (a b : String) : Bool := charsLess a.data b.data

/-- The comparison closure given to `sort.Slice` in `accumulate`:
`a, b := len(lineMatches i), len(lineMatches j); if a != b { return a < b };
return strings.Compare(uri(i).Path, uri(j).Path) < 0`. -/
def matchLess (x y : repoMatch) : Bool :=
  if x.lineMatches.length ≠ y.lineMatches.length then
    decide (x.lineMatches.length < y.lineMatches.length)
  else strLess x.uri.path y.uri.path

/-- The non-strict counterpart under which `sort.Slice`'s output is sorted:
position `i` before position `j` means `matchLess` does not rank `j`'s element
strictly below `i`'s. -/
def matchLe (x y : repoMatch) : Prop := matchLess y x = false

instance : DecidableRel matchLe := fun x y => Bool.decEq (matchLess y x) false

/-- Sorting as `sort.Slice(flattened, less)` guarantees: some permutation of
the input that is sorted under the comparison (the standard library does not
promise a stable sort, only a sorted result). Realised by insertion sort over
the same comparison. -/
def sortMatches (l : List repoMatch) : List repoMatch := l.insertionSort matchLe

/-- `accumulate` aggregates the results of a cross-repo search and sorts them:
it concatenates every batch received on the `responses` channel (in arrival
order) and sorts the flattened slice. -/
def accumulate (responses : List (List repoMatch)) : List repoMatch :=
  sortMatches responses.flatten

/-! ## The orchestrator `SearchRepos` as a transition system

`SearchRepos` spawns one `accumulate` goroutine and ten worker goroutines,
feeds the repository names into the unbuffered `repositories` channel, closes
it, waits on the `WaitGroup`, closes `responses`, inspects `ctx.Err()` and
returns. A configuration records every goroutine's position together with the
channel and context state; a `Step` is one scheduler-visible transition, with
unbuffered channel operations modelled as a rendezvous of the sender and the
receiver.

Two places of the worker body deserve care, and the model follows the code,
not the intent:

* `if _, ok := <-ctx.Done(); ok { return }` — receiving from `ctx.Done()`
  BLOCKS until the context is cancelled (the `Done` channel is closed then,
  and never carries a value), and a receive from a closed channel yields the
  zero value with `ok = false`. So the worker can only pass this statement
  once the context is cancelled, and when it passes it does NOT return: it
  proceeds into `searchRepo` with the cancelled context. There is no
  transition in which this check stops a worker.
* on a `searchRepo` error the worker runs `cancel(); return`, discarding the
  error value itself; `SearchRepos` later returns `ctx.Err()`, which is
  `context.Canceled`, never the worker's error.

The per-repository call is abstracted by an oracle `O : String → Except Err
(List repoMatch)` giving `searchRepo`'s outcome for each repository under a
live context; under a cancelled context the HTTP request of `textSearch` (and
the store lookups before it) fail at once with `context.Canceled`, which
`searchRepoRes` hard-codes. `extAllowed` says whether the environment (the
caller of `SearchRepos`) may cancel the parent context during the call. -/

/-- Program counter of one worker goroutine. -/
inductive WPC where
  | waiting : WPC
  | checkDone (repo : String) : WPC
  | searching (repo : String) : WPC
  | sendResp (rms : List repoMatch) : WPC
  | exited : WPC
deriving DecidableEq, Repr

/-- Program counter of the main goroutine of `SearchRepos`. -/
inductive MPC where
  | feeding (rem : List String) : MPC
  | wgWait : MPC
  | checkErr : MPC
  | recvResult : MPC
  | retOk (res : List repoMatch) : MPC
  | retErr (e : Err) : MPC
deriving DecidableEq, Repr

/-- Program counter of the `accumulate` goroutine. -/
inductive APC where
  | collecting (flattened : List repoMatch) : APC
  | sendResult (res : List repoMatch) : APC
  | adone : APC
deriving DecidableEq, Repr

/-- One configuration of the running `SearchRepos` call. -/
structure Config where
  main : MPC
  workers : List WPC
  accum : APC
  reposClosed : Bool
  responsesClosed : Bool
  cancelled : Bool
  extAllowed : Bool
  failed : Bool
deriving DecidableEq, Repr

/-- The initial configuration: main about to feed the repository names, ten
waiting workers, the `accumulate` goroutine collecting, channels open,
context live. `failed` is a history flag recording whether some worker's
`searchRepo` call has failed during the run. -/
def initConfig (repos : List String) (extAllowed : Bool) : Config :=
  { main := .feeding repos, workers := List.replicate 10 .waiting,
    accum := .collecting [], reposClosed := false, responsesClosed := false,
    cancelled := false, extAllowed := extAllowed, failed := false }

/-- Outcome of a worker's `searchRepo(ctx, repo, info)` call: with the
context already cancelled, the store lookup / HTTP request inside fails
immediately with `context.Canceled`; otherwise the oracle decides. -/
def searchRepoRes (O : String → Except Err (List repoMatch))
    (cancelled : Bool) (repo : String) : Except Err (List repoMatch) :=
  if cancelled then .error .canceled else O repo

/-- One transition of the system. Unbuffered channels synchronise sender and
receiver in one step (`feed`, `deliverResp`, `deliverResult`); a receive on a
closed channel completes alone (`workerExit`, `responsesDone`). -/
inductive Step (O : String → Except Err (List repoMatch)) : Config → Config → Prop where
  -- `repositories <- repo` (line 211) rendezvous with `for repo := range
  -- repositories` (line 197): worker `i` takes the next name and moves to the
  -- done-check.
  | feed (c : Config) (i : Nat) {r : String} {rest : List String}
      (hm : c.main = .feeding (r :: rest))
      (hw : c.workers.get? i = some .waiting) :
      Step O c { c with main := .feeding rest,
                        workers := c.workers.set i (.checkDone r) }
  -- `close(repositories)` (line 213) and moving to `wg.Wait()` (line 214).
  | closeRepos (c : Config) (hm : c.main = .feeding []) :
      Step O c { c with main := .wgWait, reposClosed := true }
  -- `wg.Wait()` (line 214) returns once every worker has exited, then
  -- `close(responses)` (line 215).
  | wgDone (c : Config) (hm : c.main = .wgWait)
      (hw : ∀ w ∈ c.workers, w = WPC.exited) :
      Step O c { c with main := .checkErr, responsesClosed := true }
  -- `if err := ctx.Err(); err != nil { cancel(); return nil, err }` (lines
  -- 216-219): the error returned is `ctx.Err()`, i.e. `context.Canceled`.
  | errCheckFail (c : Config) (hm : c.main = .checkErr)
      (hc : c.cancelled = true) :
      Step O c { c with main := .retErr .canceled, cancelled := true }
  -- `cancel()` before `return <-result, nil` (lines 220-221): the success
  -- path also cancels the context before receiving the result.
  | errCheckPass (c : Config) (hm : c.main = .checkErr)
      (hc : c.cancelled = false) :
      Step O c { c with main := .recvResult, cancelled := true }
  -- a waiting worker's `range repositories` ends when the channel is closed
  -- and empty; the goroutine returns (running the deferred `wg.Done()`).
  | workerExit (c : Config) (i : Nat)
      (hw : c.workers.get? i = some .waiting) (hr : c.reposClosed = true) :
      Step O c { c with workers := c.workers.set i .exited }
  -- `if _, ok := <-ctx.Done(); ok { return }` (lines 198-200): the receive
  -- completes only once the context is cancelled, and then yields ok = false,
  -- so the worker does NOT return - it proceeds into `searchRepo`. There is
  -- deliberately no transition in which this check stops a worker, and no
  -- transition past the check while the context is live.
  | doneCheckProceed (c : Config) (i : Nat) {r : String}
      (hw : c.workers.get? i = some (.checkDone r)) (hc : c.cancelled = true) :
      Step O c { c with workers := c.workers.set i (.searching r) }
  -- `searchRepo` (line 201) returns successfully: move to the `responses`
  -- send (line 206).
  | searchOk (c : Config) (i : Nat) {r : String} {rms : List repoMatch}
      (hw : c.workers.get? i = some (.searching r))
      (hres : searchRepoRes O c.cancelled r = .ok rms) :
      Step O c { c with workers := c.workers.set i (.sendResp rms) }
  -- `searchRepo` fails: `cancel(); return` (lines 202-205) - the error value
  -- itself is discarded; `failed` is a history flag recording the failure.
  | searchFail (c : Config) (i : Nat) {r : String} {e : Err}
      (hw : c.workers.get? i = some (.searching r))
      (hres : searchRepoRes O c.cancelled r = .error e) :
      Step O c { c with workers := c.workers.set i .exited,
                        cancelled := true, failed := true }
  -- `responses <- rm` (line 206) rendezvous with `for response := range
  -- responses` (line 167); the worker loops back to `range repositories`.
  | deliverResp (c : Config) (i : Nat) {rms f : List repoMatch}
      (hw : c.workers.get? i = some (.sendResp rms))
      (ha : c.accum = .collecting f) :
      Step O c { c with workers := c.workers.set i .waiting,
                        accum := .collecting (f ++ rms) }
  -- the `range responses` loop ends on the closed channel; `accumulate`
  -- sorts (lines 170-176) and moves to `result <- flattened` (line 177).
  | responsesDone (c : Config) {f : List repoMatch}
      (ha : c.accum = .collecting f) (hc : c.responsesClosed = true) :
      Step O c { c with accum := .sendResult (sortMatches f) }
  -- `result <- flattened` (line 177) rendezvous with `<-result` (line 221).
  | deliverResult (c : Config) {res : List repoMatch}
      (ha : c.accum = .sendResult res) (hm : c.main = .recvResult) :
      Step O c { c with main := .retOk res, accum := .adone }
  -- the caller cancels the parent context (allowed when `extAllowed`).
  | extCancel (c : Config) (he : c.extAllowed = true) (hc : c.cancelled = false) :
      Step O c { c with cancelled := true }

/-- Reachability: the reflexive-transitive closure of `Step`. -/
inductive Reaches (O : String → Except Err (List repoMatch)) : Config → Config → Prop where
  | refl (c : Config) : Reaches O c c
  | tail {a b c : Config} : Reaches O a b → Step O b c → Reaches O a c

theorem Reaches.head {O : String → Except Err (List repoMatch)} {a b x : Config}
    (s : Step O a b) (h : Reaches O b x) : Reaches O a x := by
  induction h with
  | refl => exact (Reaches.refl _).tail s
  | tail hr hs ih => exact ih.tail hs

/-! ### An executable scheduler

`stepsFn` computes the transitions enabled in a configuration (sound with
respect to `Step`); `runFirst` repeatedly takes the first enabled one. Runs
exhibited below are built by evaluating `runFirst`, which keeps every
intermediate configuration in evaluated (literal) form. -/

/-- Enabled moves of the main goroutine (the receive of the final result is
generated as the aggregator's rendezvous in `accumStepsFn`). -/
def mainStepsFn (c : Config) : List Config :=
  match c.main with
  | .feeding [] => [{ c with main := .wgWait, reposClosed := true }]
  | .feeding (r :: rest) =>
    (List.range c.workers.length).filterMap fun i =>
      if c.workers.get? i = some WPC.waiting then
        some { c with main := .feeding rest, workers := c.workers.set i (.checkDone r) }
      else none
  | .wgWait =>
    if c.workers.all fun w => w = WPC.exited then
      [{ c with main := .checkErr, responsesClosed := true }]
    else []
  | .checkErr =>
    if c.cancelled then [{ c with main := .retErr .canceled, cancelled := true }]
    else [{ c with main := .recvResult, cancelled := true }]
  | _ => []

/-- Enabled moves of worker `i`. -/
def workerStepsAt (O : String → Except Err (List repoMatch)) (c : Config) (i : Nat) :
    List Config :=
  match c.workers.get? i with
  | some .waiting =>
    if c.reposClosed then [{ c with workers := c.workers.set i .exited }] else []
  | some (.checkDone r) =>
    if c.cancelled then [{ c with workers := c.workers.set i (.searching r) }] else []
  | some (.searching r) =>
    match searchRepoRes O c.cancelled r with
    | .ok rms => [{ c with workers := c.workers.set i (.sendResp rms) }]
    | .error _ => [{ c with workers := c.workers.set i .exited,
                            cancelled := true, failed := true }]
  | some (.sendResp rms) =>
    match c.accum with
    | .collecting f => [{ c with workers := c.workers.set i .waiting,
                                 accum := .collecting (f ++ rms) }]
    | _ => []
  | _ => []

/-- Enabled moves of the aggregator goroutine. -/
def accumStepsFn (c : Config) : List Config :=
  match c.accum with
  | .collecting f =>
    if c.responsesClosed then [{ c with accum := .sendResult (sortMatches f) }] else []
  | .sendResult res =>
    if c.main = MPC.recvResult then [{ c with main := .retOk res, accum := .adone }]
    else []
  | .adone => []

/-- The environment's move: the caller cancelling the parent context. -/
def envStepsFn (c : Config) : List Config :=
  if c.extAllowed && !c.cancelled then [{ c with cancelled := true }] else []

def stepsFn (O : String → Except Err (List repoMatch)) (c : Config) : List Config :=
  mainStepsFn c ++ (List.range c.workers.length).flatMap (workerStepsAt O c) ++
    accumStepsFn c ++ envStepsFn c

theorem step_of_mem {O : String → Except Err (List repoMatch)} {c d : Config}
    (h : d ∈ stepsFn O c) : Step O c d := by
  unfold stepsFn at h
  rcases List.mem_append.mp h with h | h
  rotate_left
  · -- environment cancellation
    unfold envStepsFn at h
    split at h
    · rename_i hcond
      simp only [List.mem_singleton] at h
      subst h
      rw [Bool.and_eq_true, Bool.not_eq_true'] at hcond
      exact Step.extCancel c hcond.1 hcond.2
    · cases h
  rcases List.mem_append.mp h with h | h
  rotate_left
  · -- aggregator moves
    unfold accumStepsFn at h
    split at h
    · rename_i f hca
      split at h
      · rename_i hrc
        simp only [List.mem_singleton] at h
        subst h
        exact Step.responsesDone c hca hrc
      · cases h
    · rename_i res hca
      split at h
      · rename_i hm
        simp only [List.mem_singleton] at h
        subst h
        exact Step.deliverResult c hca hm
      · cases h
    · cases h
  rcases List.mem_append.mp h with h | h
  · -- main goroutine moves
    unfold mainStepsFn at h
    split at h
    · rename_i hcm
      simp only [List.mem_singleton] at h
      subst h
      exact Step.closeRepos c hcm
    · rename_i r rest hcm
      rw [List.mem_filterMap] at h
      obtain ⟨i, _, hif⟩ := h
      split at hif
      · rename_i hw
        obtain rfl : _ = d := Option.some.inj hif
        exact Step.feed c i hcm hw
      · cases hif
    · rename_i hcm
      split at h
      · rename_i hall
        simp only [List.mem_singleton] at h
        subst h
        refine Step.wgDone c hcm ?_
        intro w hw
        have h2 := List.all_eq_true.mp hall w hw
        simpa using h2
      · cases h
    · rename_i hcm
      split at h
      · rename_i hcanc
        simp only [List.mem_singleton] at h
        subst h
        exact Step.errCheckFail c hcm hcanc
      · rename_i hcanc
        simp only [List.mem_singleton] at h
        subst h
        exact Step.errCheckPass c hcm (by cases hv : c.cancelled <;> simp_all)
    · cases h
  · -- worker moves
    rw [List.mem_flatMap] at h
    obtain ⟨i, _, h⟩ := h
    unfold workerStepsAt at h
    split at h
    · rename_i hgw
      split at h
      · rename_i hrc
        simp only [List.mem_singleton] at h
        subst h
        exact Step.workerExit c i hgw hrc
      · cases h
    · rename_i r hgw
      split at h
      · rename_i hcanc
        simp only [List.mem_singleton] at h
        subst h
        exact Step.doneCheckProceed c i hgw hcanc
      · cases h
    · rename_i r hgw
      split at h
      · rename_i rms hres
        simp only [List.mem_singleton] at h
        subst h
        exact Step.searchOk c i hgw hres
      · rename_i e hres
        simp only [List.mem_singleton] at h
        subst h
        exact Step.searchFail c i hgw hres
    · rename_i rms hgw
      split at h
      · rename_i f hca
        simp only [List.mem_singleton] at h
        subst h
        exact Step.deliverResp c i hgw hca
      · cases h
    · cases h

/-- Take the first enabled transition, `n` times (staying put when stuck). -/
def runFirst (O : String → Except Err (List repoMatch)) (c : Config) : Nat → Config
  | 0 => c
  | n + 1 =>
    match stepsFn O c with
    | [] => c
    | d :: _ => runFirst O d n

theorem reaches_runFirst (O : String → Except Err (List repoMatch)) (c : Config)
    (n : Nat) : Reaches O c (runFirst O c n) := by
  induction n generalizing c with
  | zero => exact Reaches.refl c
  | succ m ih =>
    simp only [runFirst]
    cases hg : stepsFn O c with
    | nil => exact Reaches.refl c
    | cons d rest =>
      exact Reaches.head (step_of_mem (hg ▸ List.mem_cons_self d rest)) (ih d)

/-! ## Helper lemmas: measure and invariant machinery -/

/-- Replacing one element of a list changes a mapped sum by exactly the
difference of the two images (stated additively to stay in `Nat`). -/
theorem sum_map_set {α : Type} (f : α → Nat) (l : List α) (i : Nat) (x w : α)
    (h : l.get? i = some w) :
    ((l.set i x).map f).sum + f w = (l.map f).sum + f x := by
  induction l generalizing i with
  | nil => simp at h
  | cons a t ih =>
    cases i with
    | zero =>
      simp only [List.get?] at h
      obtain rfl : a = w := by exact Option.some.inj h
      simp only [List.set, List.map_cons, List.sum_cons]
      omega
    | succ n =>
      simp only [List.get?] at h
      have ih2 := ih n h
      simp only [List.set, List.map_cons, List.sum_cons]
      omega

/-- Weight of a worker's position: each worker transition strictly lowers it
(one loop iteration goes `waiting → checkDone → searching → sendResp →
waiting`, but re-entering `waiting` happens in the same rendezvous that hands
a batch to the aggregator, and taking a new repository moves weight out of the
main goroutine's queue). -/
def wpcMeasure : WPC → Nat
  | .waiting => 1
  | .checkDone _ => 4
  | .searching _ => 3
  | .sendResp _ => 2
  | .exited => 0

/-- Weight of the main goroutine's position. -/
def mpcMeasure : MPC → Nat
  | .feeding rem => 5 * rem.length + 5
  | .wgWait => 4
  | .checkErr => 3
  | .recvResult => 2
  | .retOk _ => 0
  | .retErr _ => 0

/-- Weight of the aggregator's position. -/
def apcMeasure : APC → Nat
  | .collecting _ => 2
  | .sendResult _ => 1
  | .adone => 0

/-- Global variant: strictly decreases along every transition, so every run
of the system is finite (the system can get stuck, but cannot run forever). -/
def configMeasure (c : Config) : Nat :=
  mpcMeasure c.main + (c.workers.map wpcMeasure).sum + apcMeasure c.accum +
    (if c.cancelled then 0 else 1)

theorem step_measure_lt (O : String → Except Err (List repoMatch)) {c d : Config}
    (h : Step O c d) : configMeasure d < configMeasure c := by
  cases h with
  | feed i hm hw =>
    rename_i r rest
    have hs := sum_map_set wpcMeasure c.workers i (.checkDone r) .waiting hw
    simp [configMeasure, hm, mpcMeasure, wpcMeasure] at hs ⊢
    omega
  | closeRepos hm =>
    simp [configMeasure, hm, mpcMeasure] <;> omega
  | wgDone hm hw =>
    simp [configMeasure, hm, mpcMeasure] <;> omega
  | errCheckFail hm hc =>
    simp [configMeasure, hm, hc, mpcMeasure] <;> omega
  | errCheckPass hm hc =>
    simp [configMeasure, hm, hc, mpcMeasure] <;> omega
  | workerExit i hw hr =>
    have hs := sum_map_set wpcMeasure c.workers i .exited .waiting hw
    simp [configMeasure, wpcMeasure] at hs ⊢
    omega
  | doneCheckProceed i hw hc =>
    rename_i r
    have hs := sum_map_set wpcMeasure c.workers i (.searching r) (.checkDone r) hw
    simp [configMeasure, wpcMeasure] at hs ⊢
    omega
  | searchOk i hw hres =>
    rename_i r rms
    have hs := sum_map_set wpcMeasure c.workers i (.sendResp rms) (.searching r) hw
    simp [configMeasure, wpcMeasure] at hs ⊢
    omega
  | searchFail i hw hres =>
    rename_i r e
    have hs := sum_map_set wpcMeasure c.workers i .exited (.searching r) hw
    simp [configMeasure, wpcMeasure] at hs ⊢
    cases hcv : c.cancelled <;> simp [hcv] <;> omega
  | deliverResp i hw ha =>
    rename_i rms f
    have hs := sum_map_set wpcMeasure c.workers i .waiting (.sendResp rms) hw
    simp [configMeasure, ha, apcMeasure, wpcMeasure] at hs ⊢
    omega
  | responsesDone ha hc =>
    simp [configMeasure, ha, apcMeasure] <;> omega
  | deliverResult ha hm =>
    simp [configMeasure, ha, hm, apcMeasure, mpcMeasure] <;> omega
  | extCancel he hc =>
    simp [configMeasure, hc] <;> omega

/-- An invariant preserved by every step holds at every reachable
configuration. -/
theorem reaches_inv {O : String → Except Err (List repoMatch)}
    {P : Config → Prop} (hstep : ∀ {c d : Config}, Step O c d → P c → P d)
    {a b : Config} (h : Reaches O a b) (ha : P a) : P b := by
  induction h with
  | refl => exact ha
  | tail hr hs ih => exact hstep hs ih

/-- Invariant cluster for determinism of successful outcomes: a worker can
only be inside `searchRepo` once the context is cancelled (the blocking
`<-ctx.Done()` receive admits no other way in), so under a cancelled context
every `searchRepo` call fails, no worker ever reaches the `responses` send,
the aggregator's flattened list stays empty, and a successful return carries
the empty result. -/
def InvA (c : Config) : Prop :=
  (∀ w ∈ c.workers, ∀ r, w = WPC.searching r → c.cancelled = true) ∧
  (∀ w ∈ c.workers, ∀ rms, w ≠ WPC.sendResp rms) ∧
  (∀ f, c.accum = APC.collecting f → f = []) ∧
  (∀ res, c.accum = APC.sendResult res → res = []) ∧
  (∀ l, c.main = MPC.retOk l → l = [])

theorem invA_init (repos : List String) (ext : Bool) : InvA (initConfig repos ext) := by
  refine ⟨?_, ?_, ?_, ?_, ?_⟩ <;> intros <;> simp_all [initConfig, List.mem_replicate]

theorem invA_step {O : String → Except Err (List repoMatch)} {c d : Config}
    (h : Step O c d) (hI : InvA c) : InvA d := by
  obtain ⟨h1, h2, h3, h4, h5⟩ := hI
  cases h with
  | feed i hm hw =>
    refine ⟨?_, ?_, h3, h4, ?_⟩
    · intro w hw2 r2 hs
      rcases List.mem_or_eq_of_mem_set hw2 with h | h
      · exact h1 w h r2 hs
      · subst h; simp at hs
    · intro w hw2 rms
      rcases List.mem_or_eq_of_mem_set hw2 with h | h
      · exact h2 w h rms
      · subst h; simp
    · intro l hl; simp at hl
  | closeRepos hm =>
    exact ⟨h1, h2, h3, h4, by intro l hl; simp at hl⟩
  | wgDone hm hw =>
    exact ⟨h1, h2, h3, h4, by intro l hl; simp at hl⟩
  | errCheckFail hm hc =>
    exact ⟨fun w hw2 r2 hs => rfl, h2, h3, h4, by intro l hl; simp at hl⟩
  | errCheckPass hm hc =>
    exact ⟨fun w hw2 r2 hs => rfl, h2, h3, h4, by intro l hl; simp at hl⟩
  | workerExit i hw hr =>
    refine ⟨?_, ?_, h3, h4, h5⟩
    · intro w hw2 r2 hs
      rcases List.mem_or_eq_of_mem_set hw2 with h | h
      · exact h1 w h r2 hs
      · subst h; simp at hs
    · intro w hw2 rms
      rcases List.mem_or_eq_of_mem_set hw2 with h | h
      · exact h2 w h rms
      · subst h; simp
  | doneCheckProceed i hw hc =>
    refine ⟨fun w hw2 r2 hs => hc, ?_, h3, h4, h5⟩
    intro w hw2 rms
    rcases List.mem_or_eq_of_mem_set hw2 with h | h
    · exact h2 w h rms
    · subst h; simp
  | searchOk i hw hres =>
    rename_i r rms
    have hc : c.cancelled = true := h1 _ (List.get?_mem hw) r rfl
    rw [searchRepoRes, hc] at hres
    simp at hres
  | searchFail i hw hres =>
    refine ⟨fun w hw2 r2 hs => rfl, ?_, h3, h4, h5⟩
    intro w hw2 rms
    rcases List.mem_or_eq_of_mem_set hw2 with h | h
    · exact h2 w h rms
    · subst h; simp
  | deliverResp i hw ha =>
    rename_i rms f
    exact absurd rfl (h2 _ (List.get?_mem hw) rms)
  | responsesDone ha hc =>
    refine ⟨h1, h2, ?_, ?_, h5⟩
    · intro f2 hf; simp at hf
    · intro res hres
      have : res = sortMatches _ := (APC.sendResult.inj hres).symm
      rw [this, h3 _ ha]
      rfl
  | deliverResult ha hm =>
    refine ⟨h1, h2, ?_, ?_, ?_⟩
    · intro f2 hf; simp at hf
    · intro res hres; simp at hres
    · intro l hl
      have : l = _ := (MPC.retOk.inj hl).symm
      rw [this]
      exact h4 _ ha
  | extCancel he hc =>
    exact ⟨fun w hw2 r2 hs => rfl, h2, h3, h4, h5⟩

/-- Invariant cluster for the all-or-nothing contract: a worker failure
cancels the context; once main has passed `wg.Wait()` every worker has
exited; and main can reach the success path (`recvResult`, `retOk`) only
while no worker failure has happened — after `wg.Wait()` none can happen
any more. -/
def InvB (c : Config) : Prop :=
  (c.failed = true → c.cancelled = true) ∧
  ((c.main = MPC.checkErr ∨ c.main = MPC.recvResult ∨
      (∃ l, c.main = MPC.retOk l) ∨ (∃ e, c.main = MPC.retErr e)) →
    ∀ w ∈ c.workers, w = WPC.exited) ∧
  ((c.main = MPC.recvResult ∨ (∃ l, c.main = MPC.retOk l)) → c.failed = false)

theorem invB_init (repos : List String) (ext : Bool) : InvB (initConfig repos ext) := by
  refine ⟨?_, ?_, ?_⟩ <;> intros <;> simp_all [initConfig, List.mem_replicate]

theorem invB_step {O : String → Except Err (List repoMatch)} {c d : Config}
    (h : Step O c d) (hI : InvB c) : InvB d := by
  obtain ⟨h1, h2, h3⟩ := hI
  cases h with
  | feed i hm hw =>
    refine ⟨h1, ?_, ?_⟩ <;> intro hant <;> simp at hant
  | closeRepos hm =>
    refine ⟨h1, ?_, ?_⟩ <;> intro hant <;> simp at hant
  | wgDone hm hw =>
    refine ⟨h1, fun _ => hw, ?_⟩
    intro hant; simp at hant
  | errCheckFail hm hc =>
    refine ⟨fun _ => rfl, fun _ => h2 (Or.inl hm), ?_⟩
    intro hant; simp at hant
  | errCheckPass hm hc =>
    refine ⟨fun _ => rfl, fun _ => h2 (Or.inl hm), ?_⟩
    intro _
    cases hfv : c.failed with
    | false => rfl
    | true => rw [h1 hfv] at hc; cases hc
  | workerExit i hw hr =>
    refine ⟨h1, ?_, h3⟩
    intro hant w hw2
    rcases List.mem_or_eq_of_mem_set hw2 with h | h
    · exact h2 hant w h
    · exact h
  | doneCheckProceed i hw hc =>
    refine ⟨fun _ => hc, ?_, h3⟩
    intro hant
    have := h2 hant _ (List.get?_mem hw)
    simp at this
  | searchOk i hw hres =>
    refine ⟨h1, ?_, h3⟩
    intro hant
    have := h2 hant _ (List.get?_mem hw)
    simp at this
  | searchFail i hw hres =>
    refine ⟨fun _ => rfl, ?_, ?_⟩
    · intro hant
      have := h2 hant _ (List.get?_mem hw)
      simp at this
    · intro hant
      have := h2 (by rcases hant with h | h; exact Or.inr (Or.inl h); exact Or.inr (Or.inr (Or.inl h))) _ (List.get?_mem hw)
      simp at this
  | deliverResp i hw ha =>
    refine ⟨h1, ?_, h3⟩
    intro hant
    have := h2 hant _ (List.get?_mem hw)
    simp at this
  | responsesDone ha hc =>
    exact ⟨h1, h2, h3⟩
  | deliverResult ha hm =>
    refine ⟨h1, ?_, ?_⟩
    · intro _; exact h2 (Or.inr (Or.inl hm))
    · intro _; exact h3 (Or.inl hm)
  | extCancel he hc =>
    exact ⟨fun _ => rfl, h2, h3⟩

/-- The only transition that produces a `retErr` outcome returns
`ctx.Err()`, which is `context.Canceled` — never a worker's own error. -/
def InvC (c : Config) : Prop := ∀ e, c.main = MPC.retErr e → e = Err.canceled

theorem invC_init (repos : List String) (ext : Bool) : InvC (initConfig repos ext) := by
  intro e he; simp [initConfig] at he

theorem invC_step {O : String → Except Err (List repoMatch)} {c d : Config}
    (h : Step O c d) (hI : InvC c) : InvC d := by
  cases h with
  | errCheckFail hm hc => intro e he; exact (MPC.retErr.inj he).symm
  | feed i hm hw => intro e he; simp at he
  | closeRepos hm => intro e he; simp at he
  | wgDone hm hw => intro e he; simp at he
  | errCheckPass hm hc => intro e he; simp at he
  | workerExit i hw hr => exact hI
  | doneCheckProceed i hw hc => exact hI
  | searchOk i hw hres => exact hI
  | searchFail i hw hres => exact hI
  | deliverResp i hw ha => exact hI
  | responsesDone ha hc => exact hI
  | deliverResult ha hm => intro e he; simp at he
  | extCancel he2 hc => exact hI

/-- Invariant cluster for the empty-input run (no repositories, no external
cancellation): no worker ever leaves the `waiting`/`exited` states, the
aggregator only ever holds the empty batch, the context is cancelled only on
the success path after `wg.Wait()`, and the channels are closed exactly when
the main goroutine's position says so. -/
def Inv9 (c : Config) : Prop :=
  c.extAllowed = false ∧
  (c.main = MPC.feeding [] ∨ c.main = MPC.wgWait ∨ c.main = MPC.checkErr ∨
    c.main = MPC.recvResult ∨ c.main = MPC.retOk []) ∧
  (∀ w ∈ c.workers, w = WPC.waiting ∨ w = WPC.exited) ∧
  (c.accum = APC.collecting [] ∨ c.accum = APC.sendResult [] ∨ c.accum = APC.adone) ∧
  (c.main ≠ MPC.feeding [] → c.reposClosed = true) ∧
  ((c.main = MPC.checkErr ∨ c.main = MPC.recvResult ∨ c.main = MPC.retOk []) →
    c.responsesClosed = true) ∧
  (c.cancelled = true → (c.main = MPC.recvResult ∨ c.main = MPC.retOk [])) ∧
  (c.accum = APC.adone → c.main = MPC.retOk [])

theorem inv9_init : Inv9 (initConfig [] false) := by
  refine ⟨rfl, Or.inl rfl, ?_, Or.inl rfl, ?_, ?_, ?_, ?_⟩ <;>
    intros <;> simp_all [initConfig, List.mem_replicate]

theorem inv9_step {O : String → Except Err (List repoMatch)} {c d : Config}
    (h : Step O c d) (hI : Inv9 c) : Inv9 d := by
  obtain ⟨hext, hmain, hwk, hacc, hrc, hresp, hcanc, hadone⟩ := hI
  cases h with
  | feed i hm hw =>
    rcases hmain with h | h | h | h | h <;> rw [h] at hm <;> simp at hm
  | closeRepos hm =>
    refine ⟨hext, Or.inr (Or.inl rfl), hwk, hacc, fun _ => rfl, ?_, ?_, ?_⟩
    · intro hant; simp at hant
    · intro hct
      have h2 := hcanc hct
      rw [hm] at h2
      rcases h2 with h2 | h2 <;> simp at h2
    · intro ha9
      have h2 := hadone ha9
      rw [hm] at h2
      simp at h2
  | wgDone hm hw =>
    refine ⟨hext, Or.inr (Or.inr (Or.inl rfl)), hwk, hacc, fun _ => hrc ?_, fun _ => rfl, ?_, ?_⟩
    · rw [hm]; simp
    · intro hct
      have h2 := hcanc hct
      rw [hm] at h2
      rcases h2 with h2 | h2 <;> simp at h2
    · intro ha9
      have h2 := hadone ha9
      rw [hm] at h2
      simp at h2
  | errCheckFail hm hc =>
    have h2 := hcanc hc
    rw [hm] at h2
    rcases h2 with h2 | h2 <;> simp at h2
  | errCheckPass hm hc =>
    refine ⟨hext, Or.inr (Or.inr (Or.inr (Or.inl rfl))), hwk, hacc,
      fun _ => hrc ?_, fun _ => hresp (Or.inl hm), fun _ => Or.inl rfl, ?_⟩
    · rw [hm]; simp
    · intro ha9
      have h2 := hadone ha9
      rw [hm] at h2
      simp at h2
  | workerExit i hw hr =>
    refine ⟨hext, hmain, ?_, hacc, hrc, hresp, hcanc, hadone⟩
    intro w hw2
    rcases List.mem_or_eq_of_mem_set hw2 with h | h
    · exact hwk w h
    · exact Or.inr h
  | doneCheckProceed i hw hc =>
    have h2 := hwk _ (List.get?_mem hw)
    rcases h2 with h2 | h2 <;> simp at h2
  | searchOk i hw hres =>
    have h2 := hwk _ (List.get?_mem hw)
    rcases h2 with h2 | h2 <;> simp at h2
  | searchFail i hw hres =>
    have h2 := hwk _ (List.get?_mem hw)
    rcases h2 with h2 | h2 <;> simp at h2
  | deliverResp i hw ha =>
    have h2 := hwk _ (List.get?_mem hw)
    rcases h2 with h2 | h2 <;> simp at h2
  | responsesDone ha hc =>
    have hf : c.accum = APC.collecting [] := by
      rcases hacc with h2 | h2 | h2
      · exact h2
      · rw [ha] at h2; simp at h2
      · rw [ha] at h2; simp at h2
    rw [ha] at hf
    have hf2 := APC.collecting.inj hf
    refine ⟨hext, hmain, hwk, Or.inr (Or.inl ?_), hrc, hresp, hcanc, ?_⟩
    · rw [hf2]; rfl
    · intro ha9; simp at ha9
  | deliverResult ha hm =>
    rename_i res
    have hres : res = [] := by
      rcases hacc with h2 | h2 | h2
      · rw [h2] at ha; simp at ha
      · rw [h2] at ha; exact (APC.sendResult.inj ha).symm
      · rw [h2] at ha; simp at ha
    subst hres
    refine ⟨hext, Or.inr (Or.inr (Or.inr (Or.inr rfl))), hwk, Or.inr (Or.inr rfl),
      fun _ => hrc ?_, fun _ => hresp (Or.inr (Or.inl hm)), fun _ => Or.inr rfl, fun _ => rfl⟩
    rw [hm]
    simp
  | extCancel he hc =>
    rw [hext] at he
    cases he

/-- Progress for the empty-input run: a configuration satisfying `Inv9` from
which no step is possible has returned `([] , nil)` — the run can neither
deadlock part-way nor end in an error. -/
theorem inv9_stuck {O : String → Except Err (List repoMatch)} {c : Config}
    (hI : Inv9 c) (hstuck : ∀ d, ¬ Step O c d) : c.main = MPC.retOk [] := by
  obtain ⟨hext, hmain, hwk, hacc, hrc, hresp, hcanc, hadone⟩ := hI
  rcases hmain with hm | hm | hm | hm | hm
  · exact ((hstuck _ (Step.closeRepos c hm)).elim)
  · by_cases hall : ∀ w ∈ c.workers, w = WPC.exited
    · exact ((hstuck _ (Step.wgDone c hm hall)).elim)
    · push_neg at hall
      obtain ⟨w, hwmem, hwne⟩ := hall
      rcases hwk w hwmem with rfl | rfl
      · obtain ⟨n, hn⟩ := List.mem_iff_get.mp hwmem
        have hg : c.workers.get? (↑n) = some WPC.waiting := by
          rw [List.get_eq_getElem] at hn
          rw [List.get?_eq_get n.isLt]
          simp [hn]
        exact ((hstuck _ (Step.workerExit c (↑n) hg (hrc (by rw [hm]; simp)))).elim)
      · exact (hwne rfl).elim
  · cases hcv : c.cancelled with
    | true => exact ((hstuck _ (Step.errCheckFail c hm hcv)).elim)
    | false => exact ((hstuck _ (Step.errCheckPass c hm hcv)).elim)
  · rcases hacc with ha | ha | ha
    · exact ((hstuck _ (Step.responsesDone c ha (hresp (Or.inr (Or.inl hm))))).elim)
    · exact ((hstuck _ (Step.deliverResult c ha hm)).elim)
    · have h2 := hadone ha
      rw [hm] at h2
      simp at h2
  · exact hm

/-! ## The aggregator's sort order -/

/-- The character-wise order is asymmetric. -/
theorem charsLess_asymm : ∀ a b : List Char,
    charsLess a b = true → charsLess b a = true → False := by
  intro a
  induction a with
  | nil =>
    intro b h1 h2
    cases b with
    | nil => simp [charsLess] at h1
    | cons hb tb => simp [charsLess] at h2
  | cons ha ta ih =>
    intro b h1 h2
    cases b with
    | nil => simp [charsLess] at h1
    | cons hb tb =>
      simp only [charsLess] at h1 h2
      by_cases hab : ha.toNat < hb.toNat
      · rw [if_neg (by omega), if_pos hab] at h2
        cases h2
      · rw [if_neg hab] at h1
        by_cases hba : hb.toNat < ha.toNat
        · rw [if_pos hba] at h1
          cases h1
        · rw [if_neg hba] at h1
          rw [if_neg hba, if_neg hab] at h2
          exact ih tb h1 h2

/-- The complement of the character-wise order is transitive. -/
theorem charsLess_neg_trans : ∀ a b c : List Char,
    charsLess b a = false → charsLess c b = false → charsLess c a = false := by
  intro a
  induction a with
  | nil =>
    intro b c h1 h2
    cases c <;> rfl
  | cons ha ta ih =>
    intro b c h1 h2
    cases b with
    | nil => simp [charsLess] at h1
    | cons hb tb =>
      cases c with
      | nil => simp [charsLess] at h2
      | cons hc tc =>
        simp only [charsLess] at h1 h2 ⊢
        have nba : ¬ hb.toNat < ha.toNat := by
          intro hh
          rw [if_pos hh] at h1
          cases h1
        rw [if_neg nba] at h1
        have ncb : ¬ hc.toNat < hb.toNat := by
          intro hh
          rw [if_pos hh] at h2
          cases h2
        rw [if_neg ncb] at h2
        have nca : ¬ hc.toNat < ha.toNat := by omega
        rw [if_neg nca]
        by_cases hac : ha.toNat < hc.toNat
        · rw [if_pos hac]
        · rw [if_neg hac]
          have hab : ¬ ha.toNat < hb.toNat := by omega
          have hbc : ¬ hb.toNat < hc.toNat := by omega
          rw [if_neg hab] at h1
          rw [if_neg hbc] at h2
          exact ih tb tc h1 h2

theorem matchLess_iff (x y : repoMatch) :
    matchLess x y = true ↔
      (x.lineMatches.length < y.lineMatches.length ∨
       (x.lineMatches.length = y.lineMatches.length ∧
        strLess x.uri.path y.uri.path = true)) := by
  unfold matchLess
  by_cases h : x.lineMatches.length = y.lineMatches.length <;> simp [h]

theorem matchLe_iff (x y : repoMatch) :
    matchLe x y ↔
      (x.lineMatches.length < y.lineMatches.length ∨
       (x.lineMatches.length = y.lineMatches.length ∧
        strLess y.uri.path x.uri.path = false)) := by
  unfold matchLe matchLess
  constructor
  · intro h
    rcases Nat.lt_trichotomy x.lineMatches.length y.lineMatches.length with hl | he | hg
    · exact Or.inl hl
    · refine Or.inr ⟨he, ?_⟩
      rw [if_neg (by omega)] at h
      exact h
    · rw [if_pos (by omega)] at h
      simp at h
      omega
  · intro h
    rcases h with hl | ⟨he, hp⟩
    · rw [if_pos (by omega)]
      simp
      omega
    · rw [if_neg (by omega)]
      exact hp

instance : IsTotal repoMatch matchLe := ⟨by
  intro x y
  rw [matchLe_iff, matchLe_iff]
  rcases Nat.lt_trichotomy x.lineMatches.length y.lineMatches.length with h | h | h
  · exact Or.inl (Or.inl h)
  · cases hxy : strLess y.uri.path x.uri.path with
    | false => exact Or.inl (Or.inr ⟨h, rfl⟩)
    | true =>
      cases hyx : strLess x.uri.path y.uri.path with
      | false => exact Or.inr (Or.inr ⟨h.symm, rfl⟩)
      | true => exact (charsLess_asymm _ _ hyx hxy).elim
  · exact Or.inr (Or.inl h)⟩

instance : IsTrans repoMatch matchLe := ⟨by
  intro x y z hxy hyz
  rw [matchLe_iff] at hxy hyz ⊢
  rcases hxy with h1 | ⟨h1, p1⟩ <;> rcases hyz with h2 | ⟨h2, p2⟩
  · exact Or.inl (Nat.lt_trans h1 h2)
  · exact Or.inl (by omega)
  · exact Or.inl (by omega)
  · exact Or.inr ⟨h1.trans h2, charsLess_neg_trans _ _ _ p1 p2⟩⟩

/-- The aggregator's output is sorted under the comparison handed to
`sort.Slice`. -/
theorem accumulate_sorted (responses : List (List repoMatch)) :
    List.Sorted matchLe (accumulate responses) :=
  List.sorted_insertionSort matchLe responses.flatten

/-- The aggregator's output is a permutation of the concatenation of the
batches it received. -/
theorem accumulate_perm (responses : List (List repoMatch)) :
    (accumulate responses).Perm responses.flatten :=
  List.perm_insertionSort matchLe responses.flatten

/-! ## Concrete runs -/

/-- A backend under which every repository search reports a transport failure
(the spec's Scenario B). In the runs below it is never even consulted: a
worker only reaches `searchRepo` once the context is cancelled, and then the
call fails with `context.Canceled` before the oracle matters. -/
def oracleDown : String → Except Err (List repoMatch) :=
  fun _ => .error (.transport "connection refused")

/-- A backend with no matches anywhere. -/
def oracleOkEmpty : String → Except Err (List repoMatch) :=
  fun _ => .ok []

/-- The configuration `SearchRepos(["b"])` is permanently stuck in: worker 0
holds repository `"b"` and blocks on `<-ctx.Done()`, the other nine workers
exited when `repositories` was closed, and main blocks in `wg.Wait()` on
worker 0 — while `cancel()` only happens after `wg.Wait()` returns. -/
def deadlockCfg : Config :=
  { main := .wgWait, workers := WPC.checkDone "b" :: List.replicate 9 .exited,
    accum := .collecting [], reposClosed := true, responsesClosed := false,
    cancelled := false, extAllowed := false, failed := false }

def reachDeadlock : Reaches oracleDown (initConfig ["b"] false) deadlockCfg :=
  reaches_runFirst oracleDown (initConfig ["b"] false) 11

/-- C4: the claim says every call to `SearchRepos` terminates with exactly one
outcome. It does not: with one repository (and nobody cancelling the parent
context from outside) the run reaches `deadlockCfg`, from which no transition
exists and in which `SearchRepos` has returned neither a result nor an error —
worker 0 blocks receiving from `ctx.Done()`, which is only closed by the
`cancel()` that main calls after the very `wg.Wait()` it is blocked in. -/
theorem searchRepos_deadlocks :
    Reaches oracleDown (initConfig ["b"] false) deadlockCfg ∧
    (∀ d, ¬ Step oracleDown deadlockCfg d) ∧
    (∀ l, deadlockCfg.main ≠ MPC.retOk l) ∧
    (∀ e, deadlockCfg.main ≠ MPC.retErr e) := by
  refine ⟨reachDeadlock, ?_, by intro l h; simp [deadlockCfg] at h,
    by intro e h; simp [deadlockCfg] at h⟩
  intro d h
  cases h with
  | feed i hm hw => simp [deadlockCfg] at hm
  | closeRepos hm => simp [deadlockCfg] at hm
  | wgDone hm hw =>
    have h2 := hw (WPC.checkDone "b") (by simp [deadlockCfg])
    simp at h2
  | errCheckFail hm hc => simp [deadlockCfg] at hm
  | errCheckPass hm hc => simp [deadlockCfg] at hm
  | workerExit i hw hr =>
    have h2 := List.get?_mem hw
    simp [deadlockCfg, List.mem_replicate] at h2
  | doneCheckProceed i hw hc => simp [deadlockCfg] at hc
  | searchOk i hw hres =>
    have h2 := List.get?_mem hw
    simp [deadlockCfg, List.mem_replicate] at h2
  | searchFail i hw hres =>
    have h2 := List.get?_mem hw
    simp [deadlockCfg, List.mem_replicate] at h2
  | deliverResp i hw ha =>
    have h2 := List.get?_mem hw
    simp [deadlockCfg, List.mem_replicate] at h2
  | responsesDone ha hc => simp [deadlockCfg] at hc
  | deliverResult ha hm => simp [deadlockCfg] at ha
  | extCancel he hc => simp [deadlockCfg] at he

/-- A reachable configuration in which the cancellation signal is set while
worker 0 still holds repository `"a"` at the `<-ctx.Done()` check: the parent
context was cancelled by the caller after the repository was handed out. -/
def checkSetCfg : Config :=
  { main := .wgWait, workers := WPC.checkDone "a" :: List.replicate 9 .exited,
    accum := .collecting [], reposClosed := true, responsesClosed := false,
    cancelled := true, extAllowed := true, failed := false }

/-- The configuration one step later: the worker has moved INTO the
`searchRepo` call instead of stopping. -/
def checkSetNextCfg : Config :=
  { main := .wgWait, workers := WPC.searching "a" :: List.replicate 9 .exited,
    accum := .collecting [], reposClosed := true, responsesClosed := false,
    cancelled := true, extAllowed := true, failed := false }

def reachCheckSet : Reaches oracleDown (initConfig ["a"] true) checkSetCfg :=
  reaches_runFirst oracleDown (initConfig ["a"] true) 12

/-- C3: the claim says a worker's check of the cancellation signal stops it
exactly when the signal is set. It does not: `if _, ok := <-ctx.Done(); ok`
receives the zero value with `ok = false` from the closed `Done` channel, so
with the signal set the check lets the worker proceed — in the reachable
configuration `checkSetCfg` (signal set, worker 0 at the check) the worker's
next transition STARTS the snapshot-resolution/backend call (`searching`)
rather than stopping; and with the signal clear the receive blocks the worker
instead of letting it work (the deadlock of `searchRepos_deadlocks`). -/
theorem done_check_admits_cancelled_worker :
    Reaches oracleDown (initConfig ["a"] true) checkSetCfg ∧
    checkSetCfg.cancelled = true ∧
    checkSetCfg.workers.get? 0 = some (WPC.checkDone "a") ∧
    Step oracleDown checkSetCfg checkSetNextCfg ∧
    checkSetNextCfg.workers.get? 0 = some (WPC.searching "a") :=
  ⟨reachCheckSet, rfl, rfl, Step.doneCheckProceed _ 0 rfl rfl, rfl⟩

/-- C1: for every call in which a worker's repository search fails, the error
the caller receives is `ctx.Err()` — `context.Canceled` — and never the
worker's own error: the worker discards its error (`cancel(); return`), so no
failure class (e.g. a `NetworkError` from a transport failure) can ever reach
the caller. Stated as: every reachable error return carries
`Err.canceled`. -/
theorem searchRepos_error_always_canceled (O : String → Except Err (List repoMatch))
    (repos : List String) (ext : Bool) (c : Config) (e : Err)
    (h : Reaches O (initConfig repos ext) c) (he : c.main = MPC.retErr e) :
    e = Err.canceled :=
  (reaches_inv invC_step h (invC_init repos ext)) e he

/-- The error return the run below ends in: the worker failed (under the
cancelled context), its error was discarded, and main returned `ctx.Err()`. -/
def errReturnCfg : Config :=
  { main := .retErr .canceled, workers := List.replicate 10 .exited,
    accum := .collecting [], reposClosed := true, responsesClosed := true,
    cancelled := true, extAllowed := true, failed := true }

def reachErrReturn : Reaches oracleDown (initConfig ["a"] true) errReturnCfg :=
  reaches_runFirst oracleDown (initConfig ["a"] true) 16

/-- Witness for C1's theorem: a concrete run in which a worker's search fails
and the caller receives `Err.canceled`. -/
theorem searchRepos_error_always_canceled_witness :
    errReturnCfg.main = MPC.retErr Err.canceled ∧ Err.canceled = Err.canceled :=
  ⟨rfl, searchRepos_error_always_canceled oracleDown ["a"] true errReturnCfg
    Err.canceled reachErrReturn rfl⟩

/-- C5: determinism of successful results. Any two runs of `SearchRepos` from
the same inputs that return a result return the same result. (Degenerately
so: a worker can only enter `searchRepo` under a cancelled context, where the
call always fails, so no batch is ever delivered and every successful return
is the empty sequence — nonempty inputs deadlock or error instead.) -/
theorem searchRepos_deterministic (O : String → Except Err (List repoMatch))
    (repos : List String) (ext : Bool) (c d : Config) (l m : List repoMatch)
    (hc : Reaches O (initConfig repos ext) c) (hd : Reaches O (initConfig repos ext) d)
    (hl : c.main = MPC.retOk l) (hm : d.main = MPC.retOk m) : l = m := by
  have h1 : InvA c := reaches_inv invA_step hc (invA_init repos ext)
  have h2 : InvA d := reaches_inv invA_step hd (invA_init repos ext)
  rw [h1.2.2.2.2 l hl, h2.2.2.2.2 m hm]

/-- The successful return of the empty-input run. -/
def okReturnCfg : Config :=
  { main := .retOk [], workers := List.replicate 10 .exited, accum := .adone,
    reposClosed := true, responsesClosed := true, cancelled := true,
    extAllowed := false, failed := false }

def reachOkReturn : Reaches oracleOkEmpty (initConfig [] false) okReturnCfg :=
  reaches_runFirst oracleOkEmpty (initConfig [] false) 15

/-- Witness for C5's theorem at a concrete pair of runs. -/
theorem searchRepos_deterministic_witness :
    okReturnCfg.main = MPC.retOk [] ∧ ([] : List repoMatch) = [] :=
  ⟨rfl, searchRepos_deterministic oracleOkEmpty [] false okReturnCfg okReturnCfg
    [] [] reachOkReturn reachOkReturn rfl rfl⟩

/-- C9: with zero repository names (and nobody cancelling the parent context)
`SearchRepos` returns the empty result sequence and no error: every maximal
run terminates (the measure strictly decreases along every step) and a run
that can take no further step has returned `retOk []` — in particular it has
not deadlocked and not returned an error. -/
theorem searchRepos_empty_input (O : String → Except Err (List repoMatch))
    (c : Config) (h : Reaches O (initConfig [] false) c) :
    ((∀ d, ¬ Step O c d) → c.main = MPC.retOk []) ∧
    (∀ d, Step O c d → configMeasure d < configMeasure c) := by
  have hI : Inv9 c := reaches_inv inv9_step h inv9_init
  exact ⟨fun hstuck => inv9_stuck hI hstuck, fun d hd => step_measure_lt O hd⟩

/-- Witness for C9's theorem at the initial configuration itself. -/
theorem searchRepos_empty_input_witness :
    ((∀ d, ¬ Step oracleOkEmpty (initConfig [] false) d) →
        (initConfig [] false).main = MPC.retOk []) ∧
    (∀ d, Step oracleOkEmpty (initConfig [] false) d →
        configMeasure d < configMeasure (initConfig [] false)) :=
  searchRepos_empty_input oracleOkEmpty (initConfig [] false) (Reaches.refl _)

/-- Eleven repository names: one more than the pool of ten workers. -/
def repos11 : List String :=
  ["r01", "r02", "r03", "r04", "r05", "r06", "r07", "r08", "r09", "r10", "r11"]

/-- A stuck configuration of `SearchRepos(repos11)` after every worker's
search failed: all ten workers took a repository, the caller cancelled the
parent context, each worker passed the (inverted) done-check, failed inside
`searchRepo` and returned — and main is still blocked sending `"r11"` on the
`repositories` channel, with no receiver left, forever. -/
def stuckFailedCfg : Config :=
  { main := .feeding ["r11"], workers := List.replicate 10 .exited,
    accum := .collecting [], reposClosed := false, responsesClosed := false,
    cancelled := true, extAllowed := true, failed := true }

def reachStuckFailed : Reaches oracleDown (initConfig repos11 true) stuckFailedCfg :=
  reaches_runFirst oracleDown (initConfig repos11 true) 31

/-- C6: half of the all-or-nothing contract holds — after any worker failure
no run can ever return a successful result (first conjunct, for every input
and schedule; an error return carries no results by the shape of the return
statement `return nil, err`). The other half — "the overall call returns an
error" — fails: with more repositories than workers, a run in which every
repository search failed reaches `stuckFailedCfg`, which admits no further
transition yet has returned neither a result nor an error: the call blocks
forever instead of reporting the failure. -/
theorem searchRepos_failed_run_never_returns :
    (∀ (O : String → Except Err (List repoMatch)) (repos : List String)
        (ext : Bool) (c : Config), Reaches O (initConfig repos ext) c →
        c.failed = true → ∀ l, c.main ≠ MPC.retOk l) ∧
    Reaches oracleDown (initConfig repos11 true) stuckFailedCfg ∧
    stuckFailedCfg.failed = true ∧
    (∀ d, ¬ Step oracleDown stuckFailedCfg d) ∧
    (∀ l, stuckFailedCfg.main ≠ MPC.retOk l) ∧
    (∀ e, stuckFailedCfg.main ≠ MPC.retErr e) := by
  refine ⟨?_, reachStuckFailed, rfl, ?_, by intro l h; simp [stuckFailedCfg] at h,
    by intro e h; simp [stuckFailedCfg] at h⟩
  · intro O repos ext c hr hf l hl
    have hB : InvB c := reaches_inv invB_step hr (invB_init repos ext)
    rw [hB.2.2 (Or.inr ⟨l, hl⟩)] at hf
    cases hf
  · intro d h
    cases h with
    | feed i hm hw =>
      have h2 := List.get?_mem hw
      simp [stuckFailedCfg, List.mem_replicate] at h2
    | closeRepos hm => simp [stuckFailedCfg] at hm
    | wgDone hm hw => simp [stuckFailedCfg] at hm
    | errCheckFail hm hc => simp [stuckFailedCfg] at hm
    | errCheckPass hm hc => simp [stuckFailedCfg] at hm
    | workerExit i hw hr =>
      have h2 := List.get?_mem hw
      simp [stuckFailedCfg, List.mem_replicate] at h2
    | doneCheckProceed i hw hc =>
      have h2 := List.get?_mem hw
      simp [stuckFailedCfg, List.mem_replicate] at h2
    | searchOk i hw hres =>
      have h2 := List.get?_mem hw
      simp [stuckFailedCfg, List.mem_replicate] at h2
    | searchFail i hw hres =>
      have h2 := List.get?_mem hw
      simp [stuckFailedCfg, List.mem_replicate] at h2
    | deliverResp i hw ha =>
      have h2 := List.get?_mem hw
      simp [stuckFailedCfg, List.mem_replicate] at h2
    | responsesDone ha hc => simp [stuckFailedCfg] at hc
    | deliverResult ha hm => simp [stuckFailedCfg] at ha
    | extCancel he hc => simp [stuckFailedCfg] at hc

/-- C7: with no backend endpoint configured (`SEARCHER_URL` empty),
`textSearch` fails with the configuration error before any network call: for
every input and every behaviour of the transport, the result is the
configuration error and the number of network requests issued is zero. -/
theorem textSearch_unconfigured (repo commit : String) (p : patternInfo)
    (newRequestErr : Option String) (net : searchQuery → netOutcome)
    (readBodyErr : Option String)
    (decodeBody : String → Except String (List fileMatch)) :
    textSearch "" repo commit p newRequestErr net readBodyErr decodeBody =
      (Except.error Err.config, 0) := rfl

/-- C8 (amended): a decoded `LineMatch` stores the wire value unchanged (the
conversion happens only in the `LineNumber()` accessor), and the exposed line
number equals the 0-based wire value plus one whenever that sum fits in
`int32` — at `2^31 - 1`, the largest value `encoding/json` accepts into the
field, the `int32` addition wraps instead. -/
theorem lineNumber_conversion (w : wireLineMatch) (lm : lineMatch)
    (h : decodeLineMatch w = .ok lm) :
    lm.JLineNumber = w.lineNumber ∧
    (w.lineNumber + 1 < 2 ^ 31 → lm.LineNumber = w.lineNumber + 1) := by
  unfold decodeLineMatch at h
  split at h
  · cases h
  · split at h
    · cases h
    · rename_i hrange hoff
      obtain rfl : lm = _ := (Except.ok.inj h).symm
      refine ⟨rfl, fun hlt => ?_⟩
      push_neg at hrange
      unfold lineMatch.LineNumber wrap32
      have hpow : (2 : Int) ^ 31 = 2147483648 := by norm_num
      have hpow2 : (2 : Int) ^ 32 = 4294967296 := by norm_num
      rw [hpow, hpow2] at *
      have h0 : (0 : Int) ≤ w.lineNumber + 1 + 2147483648 := by omega
      have h1 : w.lineNumber + 1 + 2147483648 < 4294967296 := by omega
      rw [Int.emod_eq_of_lt h0 h1]
      omega

/-- Witness for C8's amended theorem at wire line number 5. -/
theorem lineNumber_conversion_witness :
    ({ JPreview := "p", JLineNumber := 5, JOffsetAndLengths := [] } : lineMatch).JLineNumber = 5 ∧
    ((5 : Int) + 1 < 2 ^ 31 →
      ({ JPreview := "p", JLineNumber := 5, JOffsetAndLengths := [] } : lineMatch).LineNumber =
        5 + 1) :=
  lineNumber_conversion { preview := "p", lineNumber := 5, offsetAndLengths := [] }
    { JPreview := "p", JLineNumber := 5, JOffsetAndLengths := [] } rfl

/-- C8 counterexample: the wire value `2147483647 = 2^31 - 1` decodes (it fits
in `int32`), but the exposed line number is the wrapped `-2147483648`, not
`2147483647 + 1`: the claim "the line number exposed to callers equals the
backend-reported 0-based line number plus one" fails at this input. -/
theorem lineNumber_overflow_cex :
    decodeLineMatch { preview := "x", lineNumber := 2147483647, offsetAndLengths := [] } =
      .ok { JPreview := "x", JLineNumber := 2147483647, JOffsetAndLengths := [] } ∧
    ({ JPreview := "x", JLineNumber := 2147483647, JOffsetAndLengths := [] } : lineMatch).LineNumber =
      -2147483648 ∧
    (-2147483648 : Int) ≠ 2147483647 + 1 := by
  refine ⟨rfl, ?_, by decide⟩
  unfold lineMatch.LineNumber wrap32
  decide

/-- The store lookup succeeding with repository id 1. -/
def getByURIok : String → Except Err repoRec := fun _ => .ok { ID := 1 }

/-- A `ResolveRev` that fails: it returns `(nil, error)`. -/
def resolveRevFail : Nat → Except Err resolvedRev :=
  fun _ => .error (.other "revision not found")

/-- A benign single-repo client (never reached in the run below). -/
def textSearchOkEmpty : String → String → patternInfo → Except Err (List fileMatch) :=
  fun _ _ _ => .ok []

def patternFoo : patternInfo :=
  { Pattern := "foo", IsRegExp := false, IsWordMatch := false, IsCaseSensitive := false }

/-- C10: the claim says that when `ResolveRev` fails, `searchRepo` returns an
error and does not invoke the backend. The code instead overwrites the error
without checking it and dereferences the nil `commit` pointer: the call
panics (`none`) — it neither returns the error nor any other error value. -/
theorem searchRepo_resolveRev_unchecked :
    searchRepo getByURIok resolveRevFail textSearchOkEmpty "github.com/gorilla/mux" patternFoo =
      none ∧
    (∀ e, searchRepo getByURIok resolveRevFail textSearchOkEmpty "github.com/gorilla/mux"
      patternFoo ≠ some (.error e)) := by
  constructor
  · rfl
  · intro e h
    rw [show searchRepo getByURIok resolveRevFail textSearchOkEmpty "github.com/gorilla/mux"
      patternFoo = none from rfl] at h
    cases h

/-- C2 (amended): in every sequence the aggregator produces, an entry with
strictly fewer `LineMatch` entries precedes every entry with more; among
entries with equal counts, a strictly smaller path forces the earlier
position, and an earlier position forces a less-or-equal path. (The claim's
biconditional `a precedes b ↔ path a < path b` cannot hold when two entries
share count and path — see the counterexample.) -/
theorem accumulate_sort_law (responses : List (List repoMatch)) (i j : Nat)
    (hi : i < (accumulate responses).length) (hj : j < (accumulate responses).length)
    (hne : i ≠ j) :
    (((accumulate responses).get ⟨i, hi⟩).lineMatches.length <
        ((accumulate responses).get ⟨j, hj⟩).lineMatches.length → i < j) ∧
    (((accumulate responses).get ⟨i, hi⟩).lineMatches.length =
        ((accumulate responses).get ⟨j, hj⟩).lineMatches.length →
      (strLess ((accumulate responses).get ⟨i, hi⟩).uri.path
          ((accumulate responses).get ⟨j, hj⟩).uri.path = true → i < j) ∧
      (i < j →
        strLess ((accumulate responses).get ⟨j, hj⟩).uri.path
          ((accumulate responses).get ⟨i, hi⟩).uri.path = false)) := by
  have hs := accumulate_sorted responses
  have hpg : ∀ (a b : Fin (accumulate responses).length), a < b →
      matchLe ((accumulate responses).get a) ((accumulate responses).get b) :=
    fun a b hab => hs.rel_get_of_lt hab
  constructor
  · intro hlt
    by_contra hnlt
    have hji : j < i := by omega
    have h2 := hpg ⟨j, hj⟩ ⟨i, hi⟩ (Fin.mk_lt_mk.mpr hji)
    rw [matchLe_iff] at h2
    rcases h2 with h2 | ⟨h2, _⟩ <;> omega
  · intro heq
    constructor
    · intro hp
      by_contra hnlt
      have hji : j < i := by omega
      have h2 := hpg ⟨j, hj⟩ ⟨i, hi⟩ (Fin.mk_lt_mk.mpr hji)
      rw [matchLe_iff] at h2
      rcases h2 with h2 | ⟨h2, hp2⟩
      · omega
      · rw [hp] at hp2
        cases hp2
    · intro hij
      have h2 := hpg ⟨i, hi⟩ ⟨j, hj⟩ (Fin.mk_lt_mk.mpr hij)
      rw [matchLe_iff] at h2
      rcases h2 with h2 | ⟨h2, hp⟩
      · omega
      · exact hp

/-- One batch containing two matched files with one `LineMatch` and no
`LineMatch` respectively, on distinct paths. -/
def twoFileBatch : List (List repoMatch) :=
  [[{ uri := { repo := "r", commit := "c", path := "b" },
      lineMatches := [{ JPreview := "p", JLineNumber := 0, JOffsetAndLengths := [] }] }],
   [{ uri := { repo := "r", commit := "c", path := "a" }, lineMatches := [] }]]

/-- Witness for C2's amended theorem at the two entries of
`accumulate twoFileBatch`. -/
theorem accumulate_sort_law_witness :
    (((accumulate twoFileBatch).get ⟨0, by decide⟩).lineMatches.length <
        ((accumulate twoFileBatch).get ⟨1, by decide⟩).lineMatches.length → 0 < 1) ∧
    (((accumulate twoFileBatch).get ⟨0, by decide⟩).lineMatches.length =
        ((accumulate twoFileBatch).get ⟨1, by decide⟩).lineMatches.length →
      (strLess ((accumulate twoFileBatch).get ⟨0, by decide⟩).uri.path
          ((accumulate twoFileBatch).get ⟨1, by decide⟩).uri.path = true → 0 < 1) ∧
      (0 < 1 →
        strLess ((accumulate twoFileBatch).get ⟨1, by decide⟩).uri.path
          ((accumulate twoFileBatch).get ⟨0, by decide⟩).uri.path = false)) :=
  accumulate_sort_law twoFileBatch 0 1 (by decide) (by decide) (by decide)

/-- One batch containing the same zero-`LineMatch` file entry twice: equal
counts, equal paths. -/
def tiePair : List (List repoMatch) :=
  [[{ uri := { repo := "r", commit := "c", path := "p" }, lineMatches := [] },
    { uri := { repo := "r", commit := "c", path := "p" }, lineMatches := [] }]]

/-- C2 counterexample: the claim's tie-break is an "iff" — when counts are
equal, "a precedes b iff a's path is lexicographically smaller than b's". On
`accumulate tiePair` the first entry precedes the second with equal counts
and equal paths, so the left side of the iff holds and the right side fails:
the claim, read over all produced sequences and all entry pairs, is false. -/
theorem accumulate_tiebreak_iff_cex :
    ¬ (∀ (i j : Fin (accumulate tiePair).length),
        ((accumulate tiePair).get i).lineMatches.length =
          ((accumulate tiePair).get j).lineMatches.length →
        ((i : Nat) < (j : Nat) ↔
          strLess ((accumulate tiePair).get i).uri.path
            ((accumulate tiePair).get j).uri.path = true)) := by
  intro hall
  have h2 := hall ⟨0, by decide⟩ ⟨1, by decide⟩ (by decide)
  exact absurd (h2.mp (by decide)) (by decide)
